import Mathlib

/-!
Verification of the Firestore client module (`firebase/firestore/__init__.py`).

The module exposes three reference types — `Firestore` (root handle),
`Collection` and `Document` — that build up a flat path of string segments,
shared by mutable reference across chained calls, and terminal operations
(`get` / `set` / `delete`) that consume (clear) the path and either resolve
it against the vendor SDK client (admin mode, credentials present) or issue
an HTTP request against the REST endpoint (REST mode).

Mutable Python lists are modelled by a heap of list cells (`Heap`): each
reference holds a cell location, `list.append` / `list.clear` become writes
to the cell, and the constructor expression `[collection_id]` becomes a
fresh allocation.  External collaborators (the HTTP transport, the vendor
serializer `pbs_for_set_no_merge`, the response-body translator
`_from_datastore`, the vendor SDK client) are abstracted as parameters;
the vendor SDK reference produced by `_build_db` is modelled as a free
term (`DBRef`) recording the descents performed.
-/

/-- An opaque service-account credentials object. -/
structure Cred where
  tag : Nat
deriving DecidableEq, Repr

/-- An opaque HTTP session / transport handle. -/
structure Transport where
  tag : Nat
deriving DecidableEq, Repr

/-- A heap of mutable string-list cells, modelling Python list objects shared
by reference.  Cell `l` holds `cells.getD l []`. -/
structure Heap where
  cells : List (List String)
deriving DecidableEq, Repr

/-- Allocate a fresh cell holding `v`; returns the new heap and the location. -/
def Heap.alloc (h : Heap) (v : List String) : Heap × Nat :=
  (⟨h.cells ++ [v]⟩, h.cells.length)

/-- Read the list stored at location `l` (empty for an unallocated location). -/
def Heap.read (h : Heap) (l : Nat) : List String :=
  h.cells.getD l []

/-- Overwrite the list stored at location `l` (no-op out of range). -/
def Heap.write (h : Heap) (l : Nat) (v : List String) : Heap :=
  ⟨h.cells.set l v⟩

theorem getD_set_self (l : List (List String)) (i : Nat) (v : List String) :
    (l.set i v).getD i [] = if i < l.length then v else [] := by
  induction l generalizing i with
  | nil => cases i <;> simp [List.set, List.getD]
  | cons a t ih =>
      cases i with
      | zero => simp [List.set, List.getD]
      | succ j => simpa [List.set, List.getD, Nat.succ_lt_succ_iff] using ih j

theorem getD_set_ne (l : List (List String)) (i j : Nat) (v : List String)
    (hij : j ≠ i) : (l.set i v).getD j [] = l.getD j [] := by
  induction l generalizing i j with
  | nil => cases i <;> simp [List.set]
  | cons a t ih =>
      cases i with
      | zero =>
          cases j with
          | zero => exact absurd rfl hij
          | succ k => simp [List.set, List.getD]
      | succ m =>
          cases j with
          | zero => simp [List.set, List.getD]
          | succ k =>
              have : k ≠ m := fun hk => hij (by simp [hk])
              simpa [List.set, List.getD] using ih m k this

theorem getD_append_self (l : List (List String)) (v : List String) :
    (l ++ [v]).getD l.length [] = v := by
  induction l with
  | nil => simp [List.getD]
  | cons a t ih => simp [List.getD, ih]

theorem getD_append_old (l : List (List String)) (v : List String) (i : Nat)
    (hi : i < l.length) : (l ++ [v]).getD i [] = l.getD i [] := by
  induction l generalizing i with
  | nil => simp at hi
  | cons a t ih =>
      cases i with
      | zero => simp [List.getD]
      | succ j => simpa [List.getD] using ih j (by simpa using hi)

theorem Heap.read_write_self (h : Heap) (l : Nat) (v : List String)
    (hl : l < h.cells.length) : (h.write l v).read l = v := by
  simp [Heap.read, Heap.write, getD_set_self, hl]

theorem Heap.read_write_empty (h : Heap) (l : Nat) :
    (h.write l []).read l = [] := by
  simp only [Heap.read, Heap.write, getD_set_self]
  split <;> rfl

theorem Heap.read_write_ne (h : Heap) (l l' : Nat) (v : List String)
    (hne : l' ≠ l) : (h.write l v).read l' = h.read l' := by
  simp only [Heap.read, Heap.write]
  exact getD_set_ne _ _ _ _ hne

theorem Heap.length_write (h : Heap) (l : Nat) (v : List String) :
    (h.write l v).cells.length = h.cells.length := by
  simp [Heap.write]

theorem Heap.read_alloc_self (h : Heap) (v : List String) :
    (h.alloc v).1.read (h.alloc v).2 = v := by
  simp [Heap.alloc, Heap.read, getD_append_self]

theorem Heap.read_alloc_old (h : Heap) (v : List String) (l : Nat)
    (hl : l < h.cells.length) : (h.alloc v).1.read l = h.read l := by
  simp only [Heap.alloc, Heap.read]
  exact getD_append_old _ _ _ hl

theorem Heap.alloc_loc_lt (h : Heap) (v : List String) :
    (h.alloc v).2 < (h.alloc v).1.cells.length := by
  simp [Heap.alloc]

/-- A vendor SDK collection/document reference, modelled as a free term
recording the root `Client(credentials, project)` and the
`.collection(name)` / `.document(name)` descents performed on it. -/
inductive DBRef where
  | client (credentials : Cred) (project_id : String)
  | coll (parent : DBRef) (name : String)
  | doc (parent : DBRef) (name : String)
deriving DecidableEq, Repr

/-- Number of `.collection` descents recorded in a reference. -/
def DBRef.collDescents : DBRef → Nat
  | .client _ _ => 0
  | .coll p _ => p.collDescents + 1
  | .doc p _ => p.collDescents

/-- Number of `.document` descents recorded in a reference. -/
def DBRef.docDescents : DBRef → Nat
  | .client _ _ => 0
  | .coll p _ => p.docDescents
  | .doc p _ => p.docDescents + 1

/-- Is this a collection reference (result of a `.collection` descent)? -/
def DBRef.isColl : DBRef → Bool
  | .coll _ _ => true
  | _ => false

/-- Is this a document reference (result of a `.document` descent)? -/
def DBRef.isDoc : DBRef → Bool
  | .doc _ _ => true
  | _ => false

/-- The `for _ in range(n)` loop body of `_build_db`: each iteration pops the
first remaining segment and descends via `.collection`, then, if segments
remain, pops the next and descends via `.document`.  (`path.pop(0)` on an
empty list would raise in Python; that branch is unreachable for
`n = ceil(len(path)/2)`, the only way the loop is entered.) -/
def buildGo : Nat → DBRef → List String → DBRef × List String
  | 0, db, path => (db, path)
  | Nat.succ n, db, path =>
    match path with
    | [] => (db, [])
    | c :: rest =>
      match rest with
      | [] => buildGo n (DBRef.coll db c) []
      | d :: rest2 => buildGo n (DBRef.doc (DBRef.coll db c) d) rest2

/-- `_build_db(db, path)`: `n = ceil(len(path) / 2)` iterations of the
pop-and-descend loop; returns the final reference together with what is left
of the (destructively consumed) path list. -/
def _build_db (db : DBRef) (path : List String) : DBRef × List String :=
  buildGo ((path.length + 1) / 2) db path

/-- A detailed error raised for a non-2xx HTTP response. -/
structure FirebaseError where
  status_code : Nat
  message : String
deriving DecidableEq, Repr

/-- An HTTP response as seen by the client: status code, provider-supplied
error message, and a body of type `R` (abstract). -/
structure HTTPResponse (R : Type) where
  status_code : Nat
  errorMessage : String
  body : R
deriving DecidableEq, Repr

/-- An HTTP request issued through the transport handle: method, full URL,
header list, and an optional JSON body of type `B`. -/
structure RestCall (B : Type) where
  method : String
  url : String
  headers : List (String × String)
  body : Option B
deriving DecidableEq, Repr

/-- Modelled from the spec: `raise_detailed_error` is defined in
`firebase/_exception.py`, which is not among the sources here.  Per the
spec's error contract, any non-2xx HTTP response is converted into a raised
error carrying the response status code and the provider-supplied message;
a 2xx response raises nothing. -/
def raise_detailed_error {R : Type} (response : HTTPResponse R) :
    Except FirebaseError Unit :=
  if 200 ≤ response.status_code ∧ response.status_code < 300 then
    Except.ok ()
  else
    Except.error ⟨response.status_code, response.errorMessage⟩

/-- `'/'.join(path)`. -/
def joinPath (path : List String) : String :=
  String.intercalate "/" path

/-- The header dict passed to the transport: `{"Authorization": "Firebase " + token}`
when `token` is truthy (`if token:` — `None` and the empty string are falsy),
and no headers otherwise. -/
def authHeaders : Option String → List (String × String)
  | some t => if t = "" then [] else [("Authorization", "Firebase " ++ t)]
  | none => []

/-- The `mask` query-string fragment accumulated by `get`:
`""`, then for each field path `mask = f"{mask}mask.fieldPaths={field_path}&"`,
guarded by `if field_paths:` (`None` and the empty list are falsy). -/
def maskOf : Option (List String) → String
  | some fps =>
      if fps = [] then ""
      else fps.foldl (fun m p => m ++ "mask.fieldPaths=" ++ p ++ "&") ""
  | none => ""

/-- The `Firestore` service handle (root factory). -/
structure Firestore where
  api_key : String
  credentials : Option Cred
  project_id : String
  requests : Transport
deriving DecidableEq, Repr

/-- A reference to a collection: a location of the shared path list plus the
copied connection parameters. -/
structure Collection where
  pathLoc : Nat
  api_key : String
  credentials : Option Cred
  project_id : String
  requests : Transport
deriving DecidableEq, Repr

/-- A reference to a document: a location of the shared path list plus the
copied connection parameters. -/
structure Document where
  pathLoc : Nat
  api_key : String
  credentials : Option Cred
  project_id : String
  requests : Transport
deriving DecidableEq, Repr

/-- `Firestore.collection(collection_id)`: allocates the fresh one-element
list `[collection_id]` and returns a `Collection` over it, carrying the
connection parameters forward.  No I/O. -/
def Firestore.collection (fs : Firestore) (collection_id : String) (h : Heap) :
    Heap × Collection :=
  let a := h.alloc [collection_id]
  (a.1, ⟨a.2, fs.api_key, fs.credentials, fs.project_id, fs.requests⟩)

/-- `Collection.document(document_id)`: `self._path.append(document_id)`,
then a `Document` over the same (shared) list. -/
def Collection.document (c : Collection) (document_id : String) (h : Heap) :
    Heap × Document :=
  let h := h.write c.pathLoc (h.read c.pathLoc ++ [document_id])
  (h, ⟨c.pathLoc, c.api_key, c.credentials, c.project_id, c.requests⟩)

/-- `Document.collection(collection_id)`: `self._path.append(collection_id)`,
then a `Collection` over the same (shared) list. -/
def Document.collection (d : Document) (collection_id : String) (h : Heap) :
    Heap × Collection :=
  let h := h.write d.pathLoc (h.read d.pathLoc ++ [collection_id])
  (h, ⟨d.pathLoc, d.api_key, d.credentials, d.project_id, d.requests⟩)

/-- `self._base_path`, computed in `Document.__init__`. -/
def Document.base_path (d : Document) : String :=
  "projects/" ++ d.project_id ++ "/databases/(default)/documents"

/-- `self._base_url`, computed in `Document.__init__`. -/
def Document.base_url (d : Document) : String :=
  "https://firestore.googleapis.com/v1/" ++ d.base_path

/-- `path = self._path.copy(); self._path.clear()` — the first two lines of
every terminal operation: read the shared list, clear it. -/
def Document.consume (d : Document) (h : Heap) : List String × Heap :=
  (h.read d.pathLoc, h.write d.pathLoc [])

/-- What `Document.delete` did: an SDK delete on the resolved reference
(admin mode), or a REST DELETE request together with the result of
`raise_detailed_error` (REST mode). -/
inductive DeleteOutcome where
  | admin (ref : DBRef)
  | rest (req : RestCall Unit) (result : Except FirebaseError Unit)
deriving Repr

/-- `Document.delete(token)`.  The transport is abstracted by `net`; the
returned `Document` is the receiver after the call (its non-path attributes
are never reassigned by the method body). -/
def Document.delete {R : Type} (d : Document) (h : Heap) (token : Option String)
    (net : RestCall Unit → HTTPResponse R) : Document × Heap × DeleteOutcome :=
  let pc := d.consume h
  let path := pc.1
  let h := pc.2
  match d.credentials with
  | some cred =>
      let db_ref := _build_db (DBRef.client cred d.project_id) path
      (d, h, DeleteOutcome.admin db_ref.1)
  | none =>
      let req_ref := d.base_url ++ "/" ++ joinPath path ++ "?key=" ++ d.api_key
      let req : RestCall Unit := ⟨"DELETE", req_ref, authHeaders token, none⟩
      (d, h, DeleteOutcome.rest req (raise_detailed_error (net req)))

/-- What `Document.get` did: an SDK get (with field-path projection) on the
resolved reference (admin mode), or a REST GET request together with its
result — the raised error, or the response body translated by
`_from_datastore` (REST mode). -/
inductive GetOutcome (F : Type) where
  | admin (ref : DBRef) (field_paths : Option (List String))
  | rest (req : RestCall Unit) (result : Except FirebaseError F)
deriving Repr

/-- `Document.get(field_paths, token)`.  The transport is abstracted by
`net` and the `_from_datastore` translation of the response JSON (defined in
`firebase/firestore/_utils.py`, not among the sources here) by `translate`. -/
def Document.get {R F : Type} (d : Document) (h : Heap)
    (field_paths : Option (List String)) (token : Option String)
    (net : RestCall Unit → HTTPResponse R) (translate : R → F) :
    Document × Heap × GetOutcome F :=
  let pc := d.consume h
  let path := pc.1
  let h := pc.2
  match d.credentials with
  | some cred =>
      let db_ref := _build_db (DBRef.client cred d.project_id) path
      (d, h, GetOutcome.admin db_ref.1 field_paths)
  | none =>
      let mask := maskOf field_paths
      let req_ref := d.base_url ++ "/" ++ joinPath path ++ "?" ++ mask
        ++ "key=" ++ d.api_key
      let req : RestCall Unit := ⟨"GET", req_ref, authHeaders token, none⟩
      let response := net req
      (d, h, GetOutcome.rest req
        ((raise_detailed_error response).map (fun _ => translate response.body)))

/-- The `{"writes": [...]}` envelope POSTed to the `:commit` endpoint. -/
structure CommitBody (W : Type) where
  writes : List W
deriving DecidableEq, Repr

/-- What `Document.set` did: an SDK set with the given data on the resolved
reference (admin mode), or a REST POST request together with the result of
`raise_detailed_error` (REST mode). -/
inductive SetOutcome (D W : Type) where
  | admin (ref : DBRef) (data : D)
  | rest (req : RestCall (CommitBody W)) (result : Except FirebaseError Unit)
deriving Repr

/-- `Document.set(data, token)`.  The vendor serializer
`pbs_for_set_no_merge` (an external collaborator from the vendor SDK helper
module) is abstracted by `pbs`, mapping the document name and the data to
the single "set, no merge" write protobuf (the code takes element `[0]` of
the one-element list the helper returns, then `Message.to_dict` of it). -/
def Document.set {D W R : Type} (d : Document) (h : Heap) (data : D)
    (token : Option String) (pbs : String → D → W)
    (net : RestCall (CommitBody W) → HTTPResponse R) :
    Document × Heap × SetOutcome D W :=
  let pc := d.consume h
  let path := pc.1
  let h := pc.2
  match d.credentials with
  | some cred =>
      let db_ref := _build_db (DBRef.client cred d.project_id) path
      (d, h, SetOutcome.admin db_ref.1 data)
  | none =>
      let req_ref := d.base_url ++ ":commit?key=" ++ d.api_key
      let body : CommitBody W := ⟨[pbs (d.base_path ++ "/" ++ joinPath path) data]⟩
      let req : RestCall (CommitBody W) := ⟨"POST", req_ref, authHeaders token, some body⟩
      (d, h, SetOutcome.rest req (raise_detailed_error (net req)))

theorem buildGo_spec (path : List String) (db : DBRef) :
    (buildGo ((path.length + 1) / 2) db path).2 = [] ∧
    (buildGo ((path.length + 1) / 2) db path).1.collDescents
      = db.collDescents + (path.length + 1) / 2 ∧
    (buildGo ((path.length + 1) / 2) db path).1.docDescents
      = db.docDescents + path.length / 2 ∧
    (path = [] → (buildGo ((path.length + 1) / 2) db path).1 = db) ∧
    (path ≠ [] →
      (buildGo ((path.length + 1) / 2) db path).1.isColl
          = decide (path.length % 2 = 1) ∧
      (buildGo ((path.length + 1) / 2) db path).1.isDoc
          = decide (path.length % 2 = 0)) :=
  match path with
  | [] => by simp [buildGo]
  | [c] => by
      simp [buildGo, DBRef.collDescents, DBRef.docDescents, DBRef.isColl,
        DBRef.isDoc]
  | c :: dn :: rest => by
      obtain ⟨ih1, ih2, ih3, ih4, ih5⟩ :=
        buildGo_spec rest (DBRef.doc (DBRef.coll db c) dn)
      have hkey : buildGo (((c :: dn :: rest).length + 1) / 2) db (c :: dn :: rest)
          = buildGo ((rest.length + 1) / 2) (DBRef.doc (DBRef.coll db c) dn) rest := by
        have hn : ((c :: dn :: rest).length + 1) / 2 = (rest.length + 1) / 2 + 1 := by
          simp only [List.length_cons]
          omega
        rw [hn]
        rfl
      rw [hkey]
      refine ⟨ih1, ?_, ?_, ?_, ?_⟩
      · simp only [DBRef.collDescents] at ih2
        simp only [List.length_cons]
        omega
      · simp only [DBRef.docDescents] at ih3
        simp only [List.length_cons]
        omega
      · intro hempty
        exact absurd hempty (by simp)
      · intro _
        rcases eq_or_ne rest [] with hrest | hrest
        · subst hrest
          simp [buildGo, DBRef.isColl, DBRef.isDoc]
        · obtain ⟨hc, hd⟩ := ih5 hrest
          have hm1 : decide ((c :: dn :: rest).length % 2 = 1)
              = decide (rest.length % 2 = 1) := by
            simp only [decide_eq_decide, List.length_cons]
            omega
          have hm0 : decide ((c :: dn :: rest).length % 2 = 0)
              = decide (rest.length % 2 = 0) := by
            simp only [decide_eq_decide, List.length_cons]
            omega
          rw [hm1, hm0]
          exact ⟨hc, hd⟩

/-- C1: for every path of length `L ≥ 1`, `_build_db` performs exactly
`ceil(L/2) = (L+1)/2` collection descents and `floor(L/2) = L/2` document
descents, consumes the input sequence completely (the leftover list is
empty), and the returned reference is a collection reference exactly when
`L` is odd and a document reference exactly when `L` is even. -/
theorem build_db_resolution (cred : Cred) (pid : String)
    (path : List String) (hpath : path ≠ []) :
    (_build_db (DBRef.client cred pid) path).2 = [] ∧
    (_build_db (DBRef.client cred pid) path).1.collDescents = (path.length + 1) / 2 ∧
    (_build_db (DBRef.client cred pid) path).1.docDescents = path.length / 2 ∧
    (_build_db (DBRef.client cred pid) path).1.isColl = decide (path.length % 2 = 1) ∧
    (_build_db (DBRef.client cred pid) path).1.isDoc = decide (path.length % 2 = 0) := by
  obtain ⟨h1, h2, h3, _, h5⟩ := buildGo_spec path (DBRef.client cred pid)
  obtain ⟨hc, hd⟩ := h5 hpath
  exact ⟨h1, by simpa [DBRef.collDescents] using h2,
    by simpa [DBRef.docDescents] using h3, hc, hd⟩

theorem build_db_resolution_witness :
    (["users", "alice", "posts"] : List String) ≠ [] ∧
    ((_build_db (DBRef.client ⟨0⟩ "p") ["users", "alice", "posts"]).2 = [] ∧
     (_build_db (DBRef.client ⟨0⟩ "p") ["users", "alice", "posts"]).1.collDescents = 2 ∧
     (_build_db (DBRef.client ⟨0⟩ "p") ["users", "alice", "posts"]).1.docDescents = 1 ∧
     (_build_db (DBRef.client ⟨0⟩ "p") ["users", "alice", "posts"]).1.isColl = true ∧
     (_build_db (DBRef.client ⟨0⟩ "p") ["users", "alice", "posts"]).1.isDoc = false) :=
  ⟨by simp, by
    have h := build_db_resolution ⟨0⟩ "p" ["users", "alice", "posts"] (by simp)
    simpa using h⟩

/-- C4: `db.collection(a).document(b).collection(c)` yields a `Collection`
reference whose path list holds exactly `[a, b, c]`. -/
theorem navigation_chain_path (fs : Firestore) (h0 : Heap) (a b c : String) :
    let s1 := fs.collection a h0
    let s2 := s1.2.document b s1.1
    let s3 := s2.2.collection c s2.1
    s3.1.read s3.2.pathLoc = [a, b, c] := by
  simp only [Firestore.collection, Collection.document, Document.collection]
  rw [Heap.read_alloc_self]
  rw [Heap.read_write_self _ _ _ (Heap.alloc_loc_lt h0 [a])]
  rw [Heap.read_write_self _ _ _
    (by rw [Heap.length_write]; exact Heap.alloc_loc_lt h0 [a])]
  simp

/-- C8: `Firestore.collection(name)` returns a `Collection` seeded with a
freshly allocated single-element path list `[name]`, carrying the API key,
credentials, project id and transport handle forward unchanged; two
successive calls return references over distinct (non-aliased) cells, and
the second allocation leaves the first cell's contents intact. -/
theorem collection_factory_fresh (fs : Firestore) (h0 : Heap) (a b : String) :
    let s1 := fs.collection a h0
    let s2 := fs.collection b s1.1
    (s1.2.api_key = fs.api_key ∧ s1.2.credentials = fs.credentials ∧
     s1.2.project_id = fs.project_id ∧ s1.2.requests = fs.requests) ∧
    s1.1.read s1.2.pathLoc = [a] ∧
    (s2.2.api_key = fs.api_key ∧ s2.2.credentials = fs.credentials ∧
     s2.2.project_id = fs.project_id ∧ s2.2.requests = fs.requests) ∧
    s2.1.read s2.2.pathLoc = [b] ∧
    s1.2.pathLoc ≠ s2.2.pathLoc ∧
    s2.1.read s1.2.pathLoc = [a] := by
  refine ⟨⟨rfl, rfl, rfl, rfl⟩, Heap.read_alloc_self h0 [a],
    ⟨rfl, rfl, rfl, rfl⟩, Heap.read_alloc_self _ [b], ?_, ?_⟩
  · simp only [Firestore.collection, Heap.alloc]
    simp
  · simp only [Firestore.collection]
    rw [Heap.read_alloc_old _ _ _ (Heap.alloc_loc_lt h0 [a])]
    exact Heap.read_alloc_self h0 [a]

/-- C9: navigation mutates its receiver through the shared path list:
`Collection.document(d1)` appends `d1` to the receiver's own cell and the
returned `Document` aliases that cell, so a second `document(d2)` call on
the same `Collection` yields a `Document` whose path holds both appended
ids; symmetrically for `Document.collection`. -/
theorem navigation_mutates_receiver
    (col : Collection) (doc : Document) (h hD : Heap) (d1 d2 c1 c2 : String)
    (hcol : col.pathLoc < h.cells.length)
    (hdoc : doc.pathLoc < hD.cells.length) :
    (let s1 := col.document d1 h
     s1.2.pathLoc = col.pathLoc ∧
     s1.1.read col.pathLoc = h.read col.pathLoc ++ [d1] ∧
     (let s2 := col.document d2 s1.1
      s2.2.pathLoc = col.pathLoc ∧
      s2.1.read s2.2.pathLoc = h.read col.pathLoc ++ [d1, d2])) ∧
    (let t1 := doc.collection c1 hD
     t1.2.pathLoc = doc.pathLoc ∧
     t1.1.read doc.pathLoc = hD.read doc.pathLoc ++ [c1] ∧
     (let t2 := doc.collection c2 t1.1
      t2.2.pathLoc = doc.pathLoc ∧
      t2.1.read t2.2.pathLoc = hD.read doc.pathLoc ++ [c1, c2])) := by
  constructor
  · refine ⟨rfl, Heap.read_write_self _ _ _ hcol, rfl, ?_⟩
    simp only [Collection.document]
    rw [Heap.read_write_self _ _ _ (by rw [Heap.length_write]; exact hcol)]
    rw [Heap.read_write_self _ _ _ hcol]
    simp
  · refine ⟨rfl, Heap.read_write_self _ _ _ hdoc, rfl, ?_⟩
    simp only [Document.collection]
    rw [Heap.read_write_self _ _ _ (by rw [Heap.length_write]; exact hdoc)]
    rw [Heap.read_write_self _ _ _ hdoc]
    simp

theorem navigation_mutates_receiver_witness :
    ((0 : Nat) < (1 : Nat) ∧ (0 : Nat) < (1 : Nat)) ∧
    (let col : Collection := ⟨0, "k", none, "p", ⟨0⟩⟩
     let doc : Document := ⟨0, "k", none, "p", ⟨0⟩⟩
     let h : Heap := ⟨[["a"]]⟩
     (let s1 := col.document "x" h
      s1.2.pathLoc = col.pathLoc ∧
      s1.1.read col.pathLoc = h.read col.pathLoc ++ ["x"] ∧
      (let s2 := col.document "y" s1.1
       s2.2.pathLoc = col.pathLoc ∧
       s2.1.read s2.2.pathLoc = h.read col.pathLoc ++ ["x", "y"])) ∧
     (let t1 := doc.collection "u" h
      t1.2.pathLoc = doc.pathLoc ∧
      t1.1.read doc.pathLoc = h.read doc.pathLoc ++ ["u"] ∧
      (let t2 := doc.collection "v" t1.1
       t2.2.pathLoc = doc.pathLoc ∧
       t2.1.read t2.2.pathLoc = h.read doc.pathLoc ++ ["u", "v"]))) :=
  ⟨⟨Nat.zero_lt_one, Nat.zero_lt_one⟩,
    navigation_mutates_receiver ⟨0, "k", none, "p", ⟨0⟩⟩ ⟨0, "k", none, "p", ⟨0⟩⟩
      ⟨[["a"]]⟩ ⟨[["a"]]⟩ "x" "y" "u" "v" Nat.zero_lt_one Nat.zero_lt_one⟩

theorem Document.get_post {R F : Type} (d : Document) (h : Heap)
    (field_paths : Option (List String)) (token : Option String)
    (net : RestCall Unit → HTTPResponse R) (translate : R → F) :
    (d.get h field_paths token net translate).1 = d ∧
    (d.get h field_paths token net translate).2.1 = h.write d.pathLoc [] := by
  cases hc : d.credentials <;>
    simp [Document.get, Document.consume, hc]

theorem Document.delete_post {R : Type} (d : Document) (h : Heap)
    (token : Option String) (net : RestCall Unit → HTTPResponse R) :
    (d.delete h token net).1 = d ∧
    (d.delete h token net).2.1 = h.write d.pathLoc [] := by
  cases hc : d.credentials <;>
    simp [Document.delete, Document.consume, hc]

theorem Document.set_post {D W R : Type} (d : Document) (h : Heap) (data : D)
    (token : Option String) (pbs : String → D → W)
    (net : RestCall (CommitBody W) → HTTPResponse R) :
    (d.set h data token pbs net).1 = d ∧
    (d.set h data token pbs net).2.1 = h.write d.pathLoc [] := by
  cases hc : d.credentials <;>
    simp [Document.set, Document.consume, hc]

/-- C2: after any terminal call (`get`, `set` or `delete`), in either mode,
the shared path list is empty — the path a further terminal call would copy
and consume is `[]`; concretely, running `delete` twice in REST mode makes
the second request over the empty joined path, never over the prior
segments. -/
theorem terminal_call_clears_path {R F D W : Type}
    (d : Document) (h : Heap) (field_paths : Option (List String))
    (token : Option String) (netG : RestCall Unit → HTTPResponse R)
    (translate : R → F) (netD : RestCall Unit → HTTPResponse R) (data : D)
    (pbs : String → D → W) (netS : RestCall (CommitBody W) → HTTPResponse R) :
    ((d.consume (d.get h field_paths token netG translate).2.1).1 = [] ∧
     (d.consume (d.set h data token pbs netS).2.1).1 = [] ∧
     (d.consume (d.delete h token netD).2.1).1 = []) ∧
    (∀ (loc : Nat) (key pid : String) (tr : Transport),
      (((⟨loc, key, none, pid, tr⟩ : Document).delete
          ((⟨loc, key, none, pid, tr⟩ : Document).delete h token netD).2.1
          token netD).2.2 =
        DeleteOutcome.rest
          ⟨"DELETE",
            (⟨loc, key, none, pid, tr⟩ : Document).base_url ++ "/" ++ joinPath []
              ++ "?key=" ++ key,
            authHeaders token, none⟩
          (raise_detailed_error (netD
            ⟨"DELETE",
              (⟨loc, key, none, pid, tr⟩ : Document).base_url ++ "/" ++ joinPath []
                ++ "?key=" ++ key,
              authHeaders token, none⟩)))) := by
  refine ⟨⟨?_, ?_, ?_⟩, ?_⟩
  · rw [(Document.get_post d h field_paths token netG translate).2]
    simp [Document.consume, Heap.read_write_empty]
  · rw [(Document.set_post d h data token pbs netS).2]
    simp [Document.consume, Heap.read_write_empty]
  · rw [(Document.delete_post d h token netD).2]
    simp [Document.consume, Heap.read_write_empty]
  · intro loc key pid tr
    rw [(Document.delete_post (⟨loc, key, none, pid, tr⟩ : Document) h token netD).2]
    simp [Document.delete, Document.consume, Heap.read_write_empty]

/-- C10: every terminal call, in either mode, leaves the reference's
non-path attributes (API key, credentials, project id, transport handle)
unchanged, and modifies the heap only at the shared path cell, which it
clears. -/
theorem terminal_call_frame {R F D W : Type}
    (d : Document) (h : Heap) (field_paths : Option (List String))
    (token : Option String) (netG : RestCall Unit → HTTPResponse R)
    (translate : R → F) (netD : RestCall Unit → HTTPResponse R) (data : D)
    (pbs : String → D → W) (netS : RestCall (CommitBody W) → HTTPResponse R) :
    (((d.get h field_paths token netG translate).1.api_key = d.api_key ∧
      (d.get h field_paths token netG translate).1.credentials = d.credentials ∧
      (d.get h field_paths token netG translate).1.project_id = d.project_id ∧
      (d.get h field_paths token netG translate).1.requests = d.requests) ∧
     (d.get h field_paths token netG translate).2.1.read d.pathLoc = [] ∧
     (∀ l, l ≠ d.pathLoc →
       (d.get h field_paths token netG translate).2.1.read l = h.read l)) ∧
    (((d.set h data token pbs netS).1.api_key = d.api_key ∧
      (d.set h data token pbs netS).1.credentials = d.credentials ∧
      (d.set h data token pbs netS).1.project_id = d.project_id ∧
      (d.set h data token pbs netS).1.requests = d.requests) ∧
     (d.set h data token pbs netS).2.1.read d.pathLoc = [] ∧
     (∀ l, l ≠ d.pathLoc →
       (d.set h data token pbs netS).2.1.read l = h.read l)) ∧
    (((d.delete h token netD).1.api_key = d.api_key ∧
      (d.delete h token netD).1.credentials = d.credentials ∧
      (d.delete h token netD).1.project_id = d.project_id ∧
      (d.delete h token netD).1.requests = d.requests) ∧
     (d.delete h token netD).2.1.read d.pathLoc = [] ∧
     (∀ l, l ≠ d.pathLoc →
       (d.delete h token netD).2.1.read l = h.read l)) := by
  obtain ⟨g1, g2⟩ := Document.get_post d h field_paths token netG translate
  obtain ⟨s1, s2⟩ := Document.set_post d h data token pbs netS
  obtain ⟨e1, e2⟩ := Document.delete_post d h token netD
  refine ⟨⟨?_, ?_, ?_⟩, ⟨?_, ?_, ?_⟩, ⟨?_, ?_, ?_⟩⟩
  · rw [g1]; exact ⟨rfl, rfl, rfl, rfl⟩
  · rw [g2]; exact Heap.read_write_empty h d.pathLoc
  · intro l hl; rw [g2]; exact Heap.read_write_ne h d.pathLoc l [] hl
  · rw [s1]; exact ⟨rfl, rfl, rfl, rfl⟩
  · rw [s2]; exact Heap.read_write_empty h d.pathLoc
  · intro l hl; rw [s2]; exact Heap.read_write_ne h d.pathLoc l [] hl
  · rw [e1]; exact ⟨rfl, rfl, rfl, rfl⟩
  · rw [e2]; exact Heap.read_write_empty h d.pathLoc
  · intro l hl; rw [e2]; exact Heap.read_write_ne h d.pathLoc l [] hl

/-- C3: in REST mode each terminal operation raises exactly on a non-2xx
response, with an error carrying the response status code and the
provider-supplied message; on a 2xx response nothing is raised and `get`
returns the translated field-to-value mapping of the response body. -/
theorem rest_error_contract {R F D W : Type} (loc : Nat) (key pid : String)
    (tr : Transport) (h : Heap) (field_paths : Option (List String))
    (token : Option String) (netG netD : RestCall Unit → HTTPResponse R)
    (translate : R → F) (data : D) (pbs : String → D → W)
    (netS : RestCall (CommitBody W) → HTTPResponse R) :
    let d : Document := ⟨loc, key, none, pid, tr⟩
    let path := h.read loc
    let reqG : RestCall Unit :=
      ⟨"GET", d.base_url ++ "/" ++ joinPath path ++ "?" ++ maskOf field_paths
        ++ "key=" ++ key, authHeaders token, none⟩
    let reqD : RestCall Unit :=
      ⟨"DELETE", d.base_url ++ "/" ++ joinPath path ++ "?key=" ++ key,
        authHeaders token, none⟩
    let reqS : RestCall (CommitBody W) :=
      ⟨"POST", d.base_url ++ ":commit?key=" ++ key, authHeaders token,
        some ⟨[pbs (d.base_path ++ "/" ++ joinPath path) data]⟩⟩
    ((¬ (200 ≤ (netG reqG).status_code ∧ (netG reqG).status_code < 300) →
        (d.get h field_paths token netG translate).2.2 =
          GetOutcome.rest reqG
            (Except.error ⟨(netG reqG).status_code, (netG reqG).errorMessage⟩)) ∧
     ((200 ≤ (netG reqG).status_code ∧ (netG reqG).status_code < 300) →
        (d.get h field_paths token netG translate).2.2 =
          GetOutcome.rest reqG (Except.ok (translate (netG reqG).body)))) ∧
    ((¬ (200 ≤ (netD reqD).status_code ∧ (netD reqD).status_code < 300) →
        (d.delete h token netD).2.2 =
          DeleteOutcome.rest reqD
            (Except.error ⟨(netD reqD).status_code, (netD reqD).errorMessage⟩)) ∧
     ((200 ≤ (netD reqD).status_code ∧ (netD reqD).status_code < 300) →
        (d.delete h token netD).2.2 =
          DeleteOutcome.rest reqD (Except.ok ()))) ∧
    ((¬ (200 ≤ (netS reqS).status_code ∧ (netS reqS).status_code < 300) →
        (d.set h data token pbs netS).2.2 =
          SetOutcome.rest reqS
            (Except.error ⟨(netS reqS).status_code, (netS reqS).errorMessage⟩)) ∧
     ((200 ≤ (netS reqS).status_code ∧ (netS reqS).status_code < 300) →
        (d.set h data token pbs netS).2.2 =
          SetOutcome.rest reqS (Except.ok ()))) := by
  refine ⟨⟨?_, ?_⟩, ⟨?_, ?_⟩, ⟨?_, ?_⟩⟩ <;> intro hst <;>
    simp [Document.get, Document.delete, Document.set, Document.consume,
      raise_detailed_error, hst, Except.map]

/-- The query-string fragment the spec describes: one `mask.fieldPaths=<p>&`
parameter per requested field path, in the order given. -/
def maskStr : List String → String
  | [] => ""
  | p :: rest => "mask.fieldPaths=" ++ p ++ "&" ++ maskStr rest

theorem maskOf_foldl (fps : List String) (s : String) :
    fps.foldl (fun m p => m ++ "mask.fieldPaths=" ++ p ++ "&") s
      = s ++ maskStr fps := by
  induction fps generalizing s with
  | nil => simp [maskStr]
  | cons p rest ih =>
      simp only [List.foldl_cons]
      rw [ih]
      simp [maskStr, String.append_assoc]

theorem maskOf_eq_maskStr (fps : List String) :
    maskOf (some fps) = maskStr fps := by
  cases fps with
  | nil => rfl
  | cons p rest =>
      simp only [maskOf, reduceCtorEq, if_false]
      rw [maskOf_foldl]
      simp

/-- C5: a REST `get` with a non-empty `field_paths` list issues a request
whose query string carries one `mask.fieldPaths=<p>&` parameter per field
path, in the order given, all placed between the `?` and the `key=` API-key
parameter. -/
theorem rest_get_mask_params {R F : Type} (loc : Nat) (key pid : String)
    (tr : Transport) (h : Heap) (token : Option String) (p : String)
    (ps : List String) (net : RestCall Unit → HTTPResponse R)
    (translate : R → F) :
    let d : Document := ⟨loc, key, none, pid, tr⟩
    let req : RestCall Unit :=
      ⟨"GET", d.base_url ++ "/" ++ joinPath (h.read loc) ++ "?"
        ++ maskStr (p :: ps) ++ "key=" ++ key, authHeaders token, none⟩
    (d.get h (some (p :: ps)) token net translate).2.2 =
      GetOutcome.rest req
        ((raise_detailed_error (net req)).map (fun _ => translate (net req).body)) := by
  simp only [Document.get, Document.consume, maskOf_eq_maskStr]

/-- C6: a REST `set` POSTs to the `:commit` endpoint — the URL is
`{base}:commit?key={api_key}`, with no path segments — and its JSON body is
the `writes` envelope holding exactly the one serialized "set, no merge"
write for the document named by the joined path with the given data. -/
theorem rest_set_commit {D W R : Type} (loc : Nat) (key pid : String)
    (tr : Transport) (h : Heap) (data : D) (token : Option String)
    (pbs : String → D → W) (net : RestCall (CommitBody W) → HTTPResponse R) :
    let d : Document := ⟨loc, key, none, pid, tr⟩
    let req : RestCall (CommitBody W) :=
      ⟨"POST", d.base_url ++ ":commit?key=" ++ key, authHeaders token,
        some ⟨[pbs (d.base_path ++ "/" ++ joinPath (h.read loc)) data]⟩⟩
    (d.set h data token pbs net).2.2 =
      SetOutcome.rest req (raise_detailed_error (net req)) := by
  simp only [Document.set, Document.consume]

/-- The header list of the request a terminal `delete` issued
(empty for an admin-mode outcome, which issues no HTTP request). -/
def DeleteOutcome.requestHeaders : DeleteOutcome → List (String × String)
  | .admin _ => []
  | .rest req _ => req.headers

/-- The header list of the request a terminal `get` issued. -/
def GetOutcome.requestHeaders {F : Type} : GetOutcome F → List (String × String)
  | .admin _ _ => []
  | .rest req _ => req.headers

/-- The header list of the request a terminal `set` issued. -/
def SetOutcome.requestHeaders {D W : Type} : SetOutcome D W → List (String × String)
  | .admin _ _ => []
  | .rest req _ => req.headers

theorem rest_auth_header_counterexample :
    ((Document.delete (⟨0, "k", none, "p", ⟨0⟩⟩ : Document)
        (⟨[["c", "d"]]⟩ : Heap) (some "")
        (fun _ => (⟨200, "", ()⟩ : HTTPResponse Unit))).2.2.requestHeaders = []) ∧
    ¬ (("Authorization", "Firebase " ++ "") ∈
        (Document.delete (⟨0, "k", none, "p", ⟨0⟩⟩ : Document)
          (⟨[["c", "d"]]⟩ : Heap) (some "")
          (fun _ => (⟨200, "", ()⟩ : HTTPResponse Unit))).2.2.requestHeaders) := by
  constructor
  · rfl
  · intro hmem
    rw [show (Document.delete (⟨0, "k", none, "p", ⟨0⟩⟩ : Document)
        (⟨[["c", "d"]]⟩ : Heap) (some "")
        (fun _ => (⟨200, "", ()⟩ : HTTPResponse Unit))).2.2.requestHeaders
        = [] from rfl] at hmem
    simp at hmem

/-- C7 (amended): in REST mode every terminal operation's request carries
exactly the headers `authHeaders token`: the single header
`Authorization: Firebase <token>` when a non-empty token is supplied, and no
headers when the token is absent — or empty, which Python's `if token:`
treats as absent. -/
theorem rest_auth_header {R F D W : Type} (loc : Nat) (key pid : String)
    (tr : Transport) (h : Heap) (field_paths : Option (List String))
    (token : Option String) (netG netD : RestCall Unit → HTTPResponse R)
    (translate : R → F) (data : D) (pbs : String → D → W)
    (netS : RestCall (CommitBody W) → HTTPResponse R) :
    let d : Document := ⟨loc, key, none, pid, tr⟩
    ((d.get h field_paths token netG translate).2.2.requestHeaders
        = authHeaders token ∧
     (d.delete h token netD).2.2.requestHeaders = authHeaders token ∧
     (d.set h data token pbs netS).2.2.requestHeaders = authHeaders token) ∧
    (∀ t : String, t ≠ "" →
      authHeaders (some t) = [("Authorization", "Firebase " ++ t)]) ∧
    authHeaders none = [] ∧
    authHeaders (some "") = [] := by
  refine ⟨⟨?_, ?_, ?_⟩, ?_, rfl, rfl⟩
  · simp [Document.get, Document.consume, GetOutcome.requestHeaders]
  · simp [Document.delete, Document.consume, DeleteOutcome.requestHeaders]
  · simp [Document.set, Document.consume, SetOutcome.requestHeaders]
  · intro t ht
    simp [authHeaders, ht]
